import Mathlib

/-!
Verification development for the DNest4 `MyModel` builder template
(`code/Templates/Builder/MyModel.h`).

The repository ships only the class declaration: the fields `m`, `b`,
`sigma` (per-instance parameters), the class-level constant dataset
`x`, `y`, `N`, and the five operations `from_prior`, `perturb`,
`log_likelihood`, `print`, `description`.  The method bodies are not
part of the repository, so each operation below is modelled from the
specification's description of its contract.  Doubles are modelled as
real numbers.
-/

open Real

namespace DNest4Builder

/-- The per-instance state of `MyModel`: the three mutable parameter
fields declared in `MyModel.h` (`double m; double b; double sigma;`). -/
structure MyModel where
  m : ℝ
  b : ℝ
  sigma : ℝ

/-- The class-level constant dataset declared in `MyModel.h`
(`static const double N; static const std::vector<double> x, y;`). -/
structure DataSet where
  x : List ℝ
  y : List ℝ
  N : ℝ

/-- Dataset invariant from the spec: `len(x) == len(y) == N` and `N` is
derived from the length of `x`/`y`. -/
def DataSet.wf (d : DataSet) : Prop :=
  d.x.length = d.y.length ∧ d.N = d.x.length

/-- Modelled from the spec: the per-observation Gaussian log-density
summand of `MyModel::log_likelihood` (body absent from the repository):
`-0.5*log(2*pi*sigma^2) - (y[i] - (m*x[i]+b))^2 / (2*sigma^2)`. -/
noncomputable def logDensityTerm (mdl : MyModel) (p : ℝ × ℝ) : ℝ :=
  -0.5 * Real.log (2 * Real.pi * mdl.sigma ^ 2)
    - (p.2 - (mdl.m * p.1 + mdl.b)) ^ 2 / (2 * mdl.sigma ^ 2)

/-- Modelled from the spec: `MyModel::log_likelihood` (body absent from
the repository): the sum over all observations of the Gaussian
log-density of `y[i]` with mean `m*x[i] + b` and scale `sigma`. -/
noncomputable def log_likelihood (x y : List ℝ) (mdl : MyModel) : ℝ :=
  ((x.zip y).map (logDensityTerm mdl)).sum

/-- The sum of squared residuals `sum((y_i - m*x_i - b)^2)` appearing in
the spec's closed form for the total log-likelihood. -/
def sumSqResiduals (x y : List ℝ) (mdl : MyModel) : ℝ :=
  ((x.zip y).map (fun p => (p.2 - mdl.m * p.1 - mdl.b) ^ 2)).sum

/-- Summing a constant minus a function over a list. -/
lemma sum_map_const_sub {α : Type} (l : List α) (c : ℝ) (f : α → ℝ) :
    (l.map (fun p => c - f p)).sum = l.length * c - (l.map f).sum := by
  induction l with
  | nil => simp
  | cons a t ih => simp [ih]; ring

/-- Summing a function divided by a constant over a list. -/
lemma sum_map_div {α : Type} (l : List α) (f : α → ℝ) (d : ℝ) :
    (l.map (fun p => f p / d)).sum = (l.map f).sum / d := by
  induction l with
  | nil => simp
  | cons a t ih => simp [ih]; ring

/-- The external source of randomness (`DNest4::RNG&`), modelled as
read-only streams of variates together with a cursor: a stream of
Uniform(0,1) draws, a stream of standard normal draws, and a stream of
nonnegative integers (for uniform choices among parameters).  Each draw
advances the cursor, so the embedding threads the RNG state explicitly. -/
structure RNG where
  unif : ℕ → ℝ
  norm : ℕ → ℝ
  ints : ℕ → ℕ
  cursor : ℕ

/-- Draw one uniform variate and advance the cursor. -/
def RNG.rand (r : RNG) : ℝ × RNG :=
  (r.unif r.cursor, { r with cursor := r.cursor + 1 })

/-- Draw one standard normal variate and advance the cursor. -/
def RNG.randn (r : RNG) : ℝ × RNG :=
  (r.norm r.cursor, { r with cursor := r.cursor + 1 })

/-- Draw one integer uniformly from `{0, ..., n-1}` and advance the
cursor. -/
def RNG.randInt (r : RNG) (n : ℕ) : ℕ × RNG :=
  (r.ints r.cursor % n, { r with cursor := r.cursor + 1 })

/-- Modelled from the spec: `MyModel::from_prior` (body absent from the
repository).  Assigns `m` and `b` from wide Gaussian priors and `sigma`
from a log-uniform prior on `[10^-3, 10^3]` (a positive-support
distribution, making `sigma > 0` structurally guaranteed), fully
overwriting all three fields.  Returns the new instance state and the
advanced RNG. -/
noncomputable def MyModel.from_prior (_mdl : MyModel) (r : RNG) : MyModel × RNG :=
  let (nm, r1) := r.randn
  let (nb, r2) := r1.randn
  let (u, r3) := r2.rand
  (⟨1000 * nm, 1000 * nb,
    Real.exp (Real.log (1 / 1000) + u * (Real.log 1000 - Real.log (1 / 1000)))⟩, r3)

/-- Modelled from the spec: `MyModel::perturb` (body absent from the
repository).  Chooses one of `m`, `b`, `sigma` uniformly; adds a
Gaussian step to `m` or `b`, and moves `sigma` by a Gaussian step in log
space (so the log-uniform prior makes the proposal symmetric and
`sigma > 0` is structurally preserved).  Returns the log
Metropolis-Hastings correction (0 for these symmetric proposals), the
mutated instance state, and the advanced RNG. -/
noncomputable def MyModel.perturb (mdl : MyModel) (r : RNG) : ℝ × MyModel × RNG :=
  let (which, r1) := r.randInt 3
  let (step, r2) := r1.randn
  match which with
  | 0 => (0, { mdl with m := mdl.m + step }, r2)
  | 1 => (0, { mdl with b := mdl.b + step }, r2)
  | _ => (0, { mdl with sigma := Real.exp (Real.log mdl.sigma + step) }, r2)

/-- Apply `n` successive `perturb` calls, threading the RNG. -/
noncomputable def iterPerturb : MyModel → RNG → ℕ → MyModel × RNG
  | mdl, r, 0 => (mdl, r)
  | mdl, r, n + 1 =>
      let (_, mdl1, r1) := mdl.perturb r
      iterPerturb mdl1 r1 n

/-- Modelled from the spec: the sequence of values `MyModel::print`
writes to the output stream (body absent from the repository): the
current `m`, `b`, `sigma`, in that fixed order, nothing else. -/
def printValues (mdl : MyModel) : List ℝ :=
  [mdl.m, mdl.b, mdl.sigma]

/-- Modelled from the spec: the fixed column labels returned by
`MyModel::description` (body absent from the repository): "m", "b",
"sigma", in the same order as `print` emits values, independent of the
instance's current parameter values. -/
def descriptionLabels (_mdl : MyModel) : List String :=
  ["m", "b", "sigma"]

/-- The parameter field named by a column label, used to state that the
label order of `description` matches the value order of `print`. -/
def fieldNamed (lbl : String) (mdl : MyModel) : ℝ :=
  if lbl = "m" then mdl.m else if lbl = "b" then mdl.b else mdl.sigma

/-- Re-parse a printed record under the documented fixed order
`m, b, sigma`; fails on any other shape. -/
def parseParams : List ℝ → Option MyModel
  | [a, b, c] => some ⟨a, b, c⟩
  | _ => none

/-- The full program state relevant to `MyModel`: the per-instance
parameter fields together with the class-level dataset.  In the header
the dataset is `static const`, i.e. part of the process state the
methods can see; carrying it in the state lets the frame properties be
stated. -/
structure ProgState where
  params : MyModel
  data : DataSet

/-- One call the external sampler can make on a model instance. -/
inductive Op where
  | fromPriorOp (r : RNG)
  | perturbOp (r : RNG)
  | logLikelihoodOp
  | printOp
  | descriptionOp

/-- The effect of one call on the full program state: `from_prior` and
`perturb` overwrite parameter fields; `log_likelihood`, `print` and
`description` are `const` and change nothing. -/
noncomputable def stepOp (s : ProgState) : Op → ProgState
  | .fromPriorOp r => { s with params := (s.params.from_prior r).1 }
  | .perturbOp r => { s with params := (s.params.perturb r).2.1 }
  | .logLikelihoodOp => s
  | .printOp => s
  | .descriptionOp => s

/-- Run a sequence of calls from a starting state. -/
noncomputable def runOps (s : ProgState) : List Op → ProgState
  | [] => s
  | op :: ops => runOps (stepOp s op) ops

/-- No call changes the dataset component of the state. -/
lemma stepOp_data (s : ProgState) (op : Op) : (stepOp s op).data = s.data := by
  cases op <;> rfl

/-- No sequence of calls changes the dataset component of the state. -/
lemma runOps_data (s : ProgState) (ops : List Op) : (runOps s ops).data = s.data := by
  induction ops generalizing s with
  | nil => rfl
  | cons op ops ih => rw [runOps, ih, stepOp_data]

/-- A fuel-bounded evaluator for the summation inside `log_likelihood`:
it consumes one unit of fuel per observation and fails if the fuel runs
out, making the time bound of the likelihood loop explicit. -/
noncomputable def sumMapFuel {α : Type} (f : α → ℝ) : ℕ → List α → Option ℝ
  | _, [] => some 0
  | 0, _ :: _ => none
  | fuel + 1, a :: t => (sumMapFuel f fuel t).map (fun s => f a + s)

/-- With fuel equal to the list length, the bounded evaluator succeeds
and computes the map-sum. -/
lemma sumMapFuel_length {α : Type} (f : α → ℝ) (l : List α) :
    sumMapFuel f l.length l = some (l.map f).sum := by
  induction l with
  | nil => rfl
  | cons a t ih => simp [sumMapFuel, ih]

/-- The summed Gaussian log-density over any paired observation list,
in terms of the per-point constant and the squared residuals. -/
lemma sum_logDensityTerm (mdl : MyModel) (l : List (ℝ × ℝ)) :
    (l.map (logDensityTerm mdl)).sum
      = l.length * (-0.5 * Real.log (2 * Real.pi * mdl.sigma ^ 2))
        - (l.map (fun p => (p.2 - mdl.m * p.1 - mdl.b) ^ 2)).sum
            / (2 * mdl.sigma ^ 2) := by
  induction l with
  | nil => simp
  | cons a t ih =>
      simp only [List.map_cons, List.sum_cons, ih, List.length_cons, logDensityTerm]
      push_cast
      ring

/-- Claim C1: for every model state with `sigma > 0` and any dataset
`x`, `y` of equal length `N`, `log_likelihood` equals the Gaussian total
log-likelihood `-N*log(sigma) - N/2*log(2*pi)
- sum((y_i - m*x_i - b)^2) / (2*sigma^2)`. -/
theorem log_likelihood_gaussian_total (x y : List ℝ) (mdl : MyModel)
    (hσ : 0 < mdl.sigma) (hlen : x.length = y.length) :
    log_likelihood x y mdl
      = -(x.length : ℝ) * Real.log mdl.sigma
        - (x.length : ℝ) / 2 * Real.log (2 * Real.pi)
        - sumSqResiduals x y mdl / (2 * mdl.sigma ^ 2) := by
  have h2pi : (2 : ℝ) * Real.pi ≠ 0 := by positivity
  have hσ2 : mdl.sigma ^ 2 ≠ 0 := pow_ne_zero 2 (ne_of_gt hσ)
  unfold log_likelihood sumSqResiduals
  rw [sum_logDensityTerm, List.length_zip, hlen, min_self,
    Real.log_mul h2pi hσ2, Real.log_pow]
  push_cast
  ring

/-- Witness for claim C1 at the dataset `x = [1,2,3]`, `y = [2,4,6]` and
parameters `m = 2`, `b = 0`, `sigma = 1`. -/
theorem log_likelihood_gaussian_total_witness :
    0 < (MyModel.mk 2 0 1).sigma ∧
    ([(1 : ℝ), 2, 3].length = [(2 : ℝ), 4, 6].length) ∧
    log_likelihood [1, 2, 3] [2, 4, 6] (MyModel.mk 2 0 1)
      = -(([(1 : ℝ), 2, 3].length : ℝ)) * Real.log (MyModel.mk 2 0 1).sigma
        - (([(1 : ℝ), 2, 3].length : ℝ)) / 2 * Real.log (2 * Real.pi)
        - sumSqResiduals [1, 2, 3] [2, 4, 6] (MyModel.mk 2 0 1)
            / (2 * (MyModel.mk 2 0 1).sigma ^ 2) :=
  ⟨by norm_num, by norm_num,
    log_likelihood_gaussian_total [1, 2, 3] [2, 4, 6] (MyModel.mk 2 0 1)
      (by norm_num) (by norm_num)⟩

/-- Claim C3: with `x = [1,2,3]`, `y = [2,4,6]` and `m = 2`, `b = 0`,
`sigma = 1`, `log_likelihood` returns exactly `-1.5*log(2*pi)`. -/
theorem log_likelihood_concrete_scenario :
    log_likelihood [1, 2, 3] [2, 4, 6] (MyModel.mk 2 0 1)
      = -1.5 * Real.log (2 * Real.pi) := by
  simp only [log_likelihood, List.zip, List.zipWith, List.map_cons,
    List.map_nil, List.sum_cons, List.sum_nil, logDensityTerm]
  norm_num
  ring

/-- `from_prior` establishes `sigma > 0`: the prior for `sigma` has
positive support. -/
lemma from_prior_sigma_pos (mdl : MyModel) (r : RNG) :
    0 < (mdl.from_prior r).1.sigma := by
  simp only [MyModel.from_prior, RNG.randn, RNG.rand]
  exact Real.exp_pos _

/-- A single `perturb` call preserves `sigma > 0`. -/
lemma perturb_sigma_pos (mdl : MyModel) (r : RNG) (h : 0 < mdl.sigma) :
    0 < (mdl.perturb r).2.1.sigma := by
  have h3 : r.ints r.cursor % 3 = 0 ∨ r.ints r.cursor % 3 = 1 ∨
      r.ints r.cursor % 3 = 2 := by omega
  rcases h3 with h3 | h3 | h3 <;>
    simp only [MyModel.perturb, RNG.randInt, RNG.randn, h3] <;>
    first
      | exact h
      | exact Real.exp_pos _

/-- Any number of `perturb` calls preserves `sigma > 0`. -/
lemma iterPerturb_sigma_pos (mdl : MyModel) (r : RNG) (n : ℕ)
    (h : 0 < mdl.sigma) : 0 < (iterPerturb mdl r n).1.sigma := by
  induction n generalizing mdl r with
  | zero => exact h
  | succ n ih =>
      simp only [iterPerturb]
      exact ih _ _ (perturb_sigma_pos mdl r h)

/-- Claim C2: `sigma > 0` holds immediately after `from_prior` returns,
and after every call of any subsequent sequence of `perturb` calls. -/
theorem sigma_pos_invariant (mdl : MyModel) (r : RNG) (n : ℕ) :
    0 < (mdl.from_prior r).1.sigma ∧
    0 < (iterPerturb (mdl.from_prior r).1 (mdl.from_prior r).2 n).1.sigma :=
  ⟨from_prior_sigma_pos mdl r,
    iterPerturb_sigma_pos _ _ n (from_prior_sigma_pos mdl r)⟩

/-- A `log_likelihood()` call as the external sampler sees it: it
returns a value computed from the current fields and the class-level
dataset, and, being `const`, leaves the program state unchanged. -/
noncomputable def log_likelihood_call (s : ProgState) : ℝ × ProgState :=
  (log_likelihood s.data.x s.data.y s.params, s)

/-- Claim C4: `log_likelihood` is deterministic and pure: calling it
twice with no intervening mutation returns identical results, and the
result depends only on the current field values and the fixed dataset. -/
theorem log_likelihood_pure (x y : List ℝ) (s : ProgState) (p q : MyModel)
    (hm : p.m = q.m) (hb : p.b = q.b) (hs : p.sigma = q.sigma) :
    (log_likelihood_call (log_likelihood_call s).2).1
        = (log_likelihood_call s).1 ∧
    log_likelihood x y p = log_likelihood x y q := by
  have hpq : p = q := by cases p; cases q; simp_all
  exact ⟨rfl, by rw [hpq]⟩

/-- Witness for claim C4 at a concrete state and a concrete pair of
field-equal instances. -/
theorem log_likelihood_pure_witness :
    (MyModel.mk 1 2 3).m = (MyModel.mk 1 2 3).m ∧
    (MyModel.mk 1 2 3).b = (MyModel.mk 1 2 3).b ∧
    (MyModel.mk 1 2 3).sigma = (MyModel.mk 1 2 3).sigma ∧
    ((log_likelihood_call
        (log_likelihood_call
          (ProgState.mk (MyModel.mk 0 0 1) (DataSet.mk [1] [1] 1))).2).1
      = (log_likelihood_call
          (ProgState.mk (MyModel.mk 0 0 1) (DataSet.mk [1] [1] 1))).1 ∧
    log_likelihood [1, 2, 3] [2, 4, 6] (MyModel.mk 1 2 3)
      = log_likelihood [1, 2, 3] [2, 4, 6] (MyModel.mk 1 2 3)) :=
  ⟨rfl, rfl, rfl,
    log_likelihood_pure [1, 2, 3] [2, 4, 6]
      (ProgState.mk (MyModel.mk 0 0 1) (DataSet.mk [1] [1] 1))
      (MyModel.mk 1 2 3) (MyModel.mk 1 2 3) rfl rfl rfl⟩

/-- Claim C5: no operation sequence ever modifies the dataset fields
`x`, `y`, `N`: after any sequence of calls (`from_prior`, `perturb`,
`log_likelihood`, `print`, `description`) the dataset component of the
state is unchanged, so only `m`, `b`, `sigma` ever change. -/
theorem dataset_immutable (s : ProgState) (ops : List Op) :
    (runOps s ops).data = s.data :=
  runOps_data s ops

/-- Claim C8: the dataset invariant `len(x) = len(y) = N` holds at all
times: it is preserved by every sequence of calls. -/
theorem dataset_lengths_invariant (s : ProgState) (ops : List Op)
    (h : s.data.wf) : (runOps s ops).data.wf := by
  rw [runOps_data]
  exact h

/-- Witness for claim C8 at the dataset `x = [1,2,3]`, `y = [2,4,6]`,
`N = 3` and a concrete call sequence. -/
theorem dataset_lengths_invariant_witness :
    (ProgState.mk (MyModel.mk 2 0 1) (DataSet.mk [1, 2, 3] [2, 4, 6] 3)).data.wf ∧
    (runOps (ProgState.mk (MyModel.mk 2 0 1) (DataSet.mk [1, 2, 3] [2, 4, 6] 3))
        [Op.printOp, Op.descriptionOp]).data.wf :=
  ⟨by simp [DataSet.wf],
    dataset_lengths_invariant _ [Op.printOp, Op.descriptionOp]
      (by simp [DataSet.wf])⟩

/-- Claim C6: `description` returns the fixed labels "m", "b", "sigma"
independently of the instance's parameter values; the label count
equals the count of values written by `print`; and the labels name the
printed values in the same order. -/
theorem description_matches_print (p q : MyModel) :
    descriptionLabels p = descriptionLabels q ∧
    (descriptionLabels p).length = (printValues p).length ∧
    printValues p = (descriptionLabels p).map (fun lbl => fieldNamed lbl p) := by
  refine ⟨rfl, rfl, ?_⟩
  simp [printValues, descriptionLabels, fieldNamed]

/-- Claim C7: re-parsing the output of `print` under the documented
fixed order `m, b, sigma` reconstructs the instance's parameter values
exactly. -/
theorem print_parse_round_trip (mdl : MyModel) :
    parseParams (printValues mdl) = some mdl :=
  rfl

/-- Claim C9: every operation terminates on every input: the likelihood
summation succeeds with fuel equal to the number of observations (the
`O(N)` bound), and the remaining operations are non-recursive total
computations. -/
theorem operations_terminate (x y : List ℝ) (mdl : MyModel) (r : RNG) :
    sumMapFuel (logDensityTerm mdl) (x.zip y).length (x.zip y)
        = some (log_likelihood x y mdl) ∧
    (∃ out, mdl.from_prior r = out) ∧
    (∃ out, mdl.perturb r = out) ∧
    (∃ out, printValues mdl = out) ∧
    (∃ out, descriptionLabels mdl = out) :=
  ⟨sumMapFuel_length _ _, ⟨_, rfl⟩, ⟨_, rfl⟩, ⟨_, rfl⟩, ⟨_, rfl⟩⟩

/-- Claim C10: the per-instance state is exactly the fields `m`, `b`,
`sigma`, so two instances agreeing on those fields return equal results
from `log_likelihood`, `print` and `description` on the shared
dataset. -/
theorem equal_fields_equal_observables (x y : List ℝ) (p q : MyModel)
    (hm : p.m = q.m) (hb : p.b = q.b) (hs : p.sigma = q.sigma) :
    log_likelihood x y p = log_likelihood x y q ∧
    printValues p = printValues q ∧
    descriptionLabels p = descriptionLabels q := by
  have hpq : p = q := by cases p; cases q; simp_all
  rw [hpq]
  exact ⟨rfl, rfl, rfl⟩

/-- Witness for claim C10 at two concrete field-equal instances and the
dataset `x = [1,2,3]`, `y = [2,4,6]`. -/
theorem equal_fields_equal_observables_witness :
    (MyModel.mk 2 0 1).m = (MyModel.mk 2 0 1).m ∧
    (MyModel.mk 2 0 1).b = (MyModel.mk 2 0 1).b ∧
    (MyModel.mk 2 0 1).sigma = (MyModel.mk 2 0 1).sigma ∧
    (log_likelihood [1, 2, 3] [2, 4, 6] (MyModel.mk 2 0 1)
        = log_likelihood [1, 2, 3] [2, 4, 6] (MyModel.mk 2 0 1) ∧
      printValues (MyModel.mk 2 0 1) = printValues (MyModel.mk 2 0 1) ∧
      descriptionLabels (MyModel.mk 2 0 1) = descriptionLabels (MyModel.mk 2 0 1)) :=
  ⟨rfl, rfl, rfl,
    equal_fields_equal_observables [1, 2, 3] [2, 4, 6]
      (MyModel.mk 2 0 1) (MyModel.mk 2 0 1) rfl rfl rfl⟩

end DNest4Builder
